import Mathlib

/-!
A shallow embedding of the Vulkan host-allocation shim declared in
`src/allocator.hpp` and implemented in `src/allocator.cpp` (namespace
`cqdeVk`), together with proofs about its bookkeeping behaviour.

Modelling decisions:
* Addresses (`void*`) are natural numbers; `0` plays the role of `nullptr`.
* `std::unordered_map` / `std::map` are association lists with unique keys;
  `mapLookup`, `mapInsert` and `mapErase` mirror `count`/`operator[]`
  assignment/`erase`.  `operator[]` read access with default construction is
  mirrored by `Option.getD ⟨0, 0⟩`.
* `size_t` arithmetic wraps modulo `2 ^ 64`; `add64` / `sub64` perform the
  wrapping addition and subtraction of the C++ `+=`, `++`, `-=`, `--`.
* The platform allocator `std::aligned_alloc` is an oracle: each call that can
  allocate receives the address the platform would return (`0` = failure).
* Byte contents of heap blocks are a function from block base address and byte
  offset to byte value; `std::memcpy` rewrites the destination block's prefix.
-/

namespace cqdeVk

/-- The five `VkSystemAllocationScope` categories supplied by the host. -/
inductive VkSystemAllocationScope where
  | command
  | object
  | cache
  | device
  | instanceScope
  deriving DecidableEq, Repr

/-- `VkInternalAllocationType` (one variant in the Vulkan headers). -/
inductive VkInternalAllocationType where
  | executable
  deriving DecidableEq, Repr

/-- Addresses; `0` stands for `nullptr`. -/
abbrev Ptr := Nat

/-- `Allocator::AllocatedBlock`: one live externally addressable allocation. -/
structure AllocatedBlock where
  size : Nat
  alignment : Nat
  scope : VkSystemAllocationScope
  deriving DecidableEq, Repr

/-- `Allocator::ScopeAllocation`: the running `(bytes, count)` total of one scope. -/
structure ScopeAllocation where
  size : Nat
  count : Nat
  deriving DecidableEq, Repr

/-- Lookup in an association-list map (`std::map::count` / read access). -/
def mapLookup {α β : Type} [DecidableEq α] : List (α × β) → α → Option β
  | [], _ => none
  | e :: rest, k => if e.1 = k then some e.2 else mapLookup rest k

/-- Insert-or-replace in an association-list map (`operator[] =` assignment). -/
def mapInsert {α β : Type} [DecidableEq α] : List (α × β) → α → β → List (α × β)
  | [], k, v => [(k, v)]
  | e :: rest, k, v => if e.1 = k then (k, v) :: rest else e :: mapInsert rest k v

/-- Erase a key from an association-list map (`std::map::erase`). -/
def mapErase {α β : Type} [DecidableEq α] : List (α × β) → α → List (α × β)
  | [], _ => []
  | e :: rest, k => if e.1 = k then rest else e :: mapErase rest k

/-- `2 ^ 64`, the modulus of `size_t` arithmetic. -/
def UINT64_MOD : Nat := 18446744073709551616

theorem UINT64_MOD_eq : UINT64_MOD = 2 ^ 64 := by norm_num [UINT64_MOD]

/-- Wrapping `size_t` addition. -/
def add64 (a b : Nat) : Nat := (a + b) % UINT64_MOD

/-- Wrapping `size_t` subtraction. -/
def sub64 (a b : Nat) : Nat := (a + (UINT64_MOD - b % UINT64_MOD)) % UINT64_MOD

/-- The state of a `cqdeVk::Allocator`: the Block Ledger `mAllocatedBlocks`
and the Scope Aggregator `mOccupiedMemory`. -/
structure Allocator where
  mAllocatedBlocks : List (Ptr × AllocatedBlock)
  mOccupiedMemory : List (VkSystemAllocationScope × ScopeAllocation)
  deriving DecidableEq, Repr

/-- A default-constructed `Allocator`: both maps empty. -/
def emptyAllocator : Allocator := ⟨[], []⟩

/-- The aggregate recorded for a scope, reading an absent entry as the
value-initialised `{0, 0}` that `operator[]` would create. -/
def getScope (st : Allocator) (scope : VkSystemAllocationScope) : ScopeAllocation :=
  (mapLookup st.mOccupiedMemory scope).getD ⟨0, 0⟩

/-- Byte contents of heap blocks: block base address → byte offset → byte. -/
abbrev Mem : Type := Ptr → Nat → Nat

/-- `std::memcpy(dst, src, n)` for two non-overlapping blocks: the first `n`
bytes of the block at `dst` become those of the block at `src`. -/
def memcpy (mem : Mem) (dst src : Ptr) (n : Nat) : Mem :=
  fun p i => if p = dst ∧ i < n then mem src i else mem p i

/-- `Allocator::allocate` (allocator.cpp:61-85).  `ret` is the oracle answer of
`std::aligned_alloc(alignment, size)`; `0` means the platform failed.  On
success the block is recorded in the ledger and the scope aggregate grows by
`(size, 1)`. -/
def Allocator.allocate (st : Allocator) (ret : Ptr) (size alignment : Nat)
    (scope : VkSystemAllocationScope) : Option Ptr × Allocator :=
  if ret = 0 then
    (none, st)
  else
    let sa := getScope st scope
    (some ret,
      ⟨mapInsert st.mAllocatedBlocks ret ⟨size, alignment, scope⟩,
       mapInsert st.mOccupiedMemory scope ⟨add64 sa.size size, add64 sa.count 1⟩⟩)

/-- `Allocator::deallocate` (allocator.cpp:128-145).  Unknown addresses are a
no-op; a known block is erased and its scope aggregate shrinks by
`(block.size, 1)`. -/
def Allocator.deallocate (st : Allocator) (data : Ptr) : Allocator :=
  match mapLookup st.mAllocatedBlocks data with
  | none => st
  | some block =>
    let sa := getScope st block.scope
    ⟨mapErase st.mAllocatedBlocks data,
     mapInsert st.mOccupiedMemory block.scope
       ⟨sub64 sa.size block.size, sub64 sa.count 1⟩⟩

/-- `Allocator::allocate_internal` (allocator.cpp:147-157): aggregate-only
accounting, `type` is ignored. -/
def Allocator.allocate_internal (st : Allocator) (size : Nat)
    (type : VkInternalAllocationType) (scope : VkSystemAllocationScope) : Allocator :=
  let sa := getScope st scope
  ⟨st.mAllocatedBlocks,
   mapInsert st.mOccupiedMemory scope ⟨add64 sa.size size, add64 sa.count 1⟩⟩

/-- `Allocator::deallocate_internal` (allocator.cpp:159-169): aggregate-only
accounting, `type` is ignored. -/
def Allocator.deallocate_internal (st : Allocator) (size : Nat)
    (type : VkInternalAllocationType) (scope : VkSystemAllocationScope) : Allocator :=
  let sa := getScope st scope
  ⟨st.mAllocatedBlocks,
   mapInsert st.mOccupiedMemory scope ⟨sub64 sa.size size, sub64 sa.count 1⟩⟩

/-- `Allocator::reallocate` (allocator.cpp:87-126).  `ret` is the oracle answer
for the inner fresh `allocate`.  Unknown blocks fail with no state change; on a
successful fresh allocation `min(size, block.size)` bytes are copied and the
old block is deallocated. -/
def Allocator.reallocate (st : Allocator) (mem : Mem) (ret : Ptr) (data : Ptr)
    (size alignment : Nat) (scope : VkSystemAllocationScope) :
    Option Ptr × Allocator × Mem :=
  match mapLookup st.mAllocatedBlocks data with
  | none => (none, st, mem)
  | some block =>
    match st.allocate ret size alignment scope with
    | (none, st1) => (none, st1, mem)
    | (some newData, st1) =>
      (some newData, st1.deallocate data, memcpy mem newData data (min size block.size))

/-- The `cqdeVk::allocate` callback trampoline (allocator.cpp:172-190). -/
def allocate (allocator : Allocator) (ret : Ptr) (size alignment : Nat)
    (scope : VkSystemAllocationScope) : Option Ptr × Allocator :=
  allocator.allocate ret size alignment scope

/-- The `cqdeVk::reallocate` callback trampoline (allocator.cpp:192-230):
`size == 0` frees the pointer and returns null; a null pointer with
`size > 0` performs a fresh allocation instead of a resize. -/
def reallocate (allocator : Allocator) (mem : Mem) (ret : Ptr) (data : Ptr)
    (size alignment : Nat) (scope : VkSystemAllocationScope) :
    Option Ptr × Allocator × Mem :=
  if size = 0 then
    (none, allocator.deallocate data, mem)
  else if data ≠ 0 then
    allocator.reallocate mem ret data size alignment scope
  else
    let r := allocator.allocate ret size alignment scope
    (r.1, r.2, mem)

/-- The `cqdeVk::free` callback trampoline (allocator.cpp:232-246). -/
def free (allocator : Allocator) (data : Ptr) : Allocator :=
  allocator.deallocate data

/-- The `cqdeVk::internalAllocate` callback trampoline (allocator.cpp:248-266). -/
def internalAllocate (allocator : Allocator) (size : Nat)
    (type : VkInternalAllocationType) (scope : VkSystemAllocationScope) : Allocator :=
  allocator.allocate_internal size type scope

/-- The `cqdeVk::internalFree` callback trampoline (allocator.cpp:268-286). -/
def internalFree (allocator : Allocator) (size : Nat)
    (type : VkInternalAllocationType) (scope : VkSystemAllocationScope) : Allocator :=
  allocator.deallocate_internal size type scope


/-! ### Association-list map lemmas -/

theorem mapLookup_insert_self {α β : Type} [DecidableEq α]
    (l : List (α × β)) (k : α) (v : β) :
    mapLookup (mapInsert l k v) k = some v := by
  induction l with
  | nil => simp [mapInsert, mapLookup]
  | cons e rest ih =>
    by_cases h : e.1 = k <;> simp [mapInsert, mapLookup, h, ih]

theorem mapLookup_insert_ne {α β : Type} [DecidableEq α]
    (l : List (α × β)) (k q : α) (v : β) (h : q ≠ k) :
    mapLookup (mapInsert l k v) q = mapLookup l q := by
  have hk : ¬ k = q := fun a => h a.symm
  induction l with
  | nil => simp [mapInsert, mapLookup, hk]
  | cons e rest ih =>
    by_cases he : e.1 = k
    · simp [mapInsert, mapLookup, he, hk]
    · simp only [mapInsert, he, if_false, mapLookup, ih]

theorem mapLookup_erase_ne {α β : Type} [DecidableEq α]
    (l : List (α × β)) (k q : α) (h : q ≠ k) :
    mapLookup (mapErase l k) q = mapLookup l q := by
  have hk : ¬ k = q := fun a => h a.symm
  induction l with
  | nil => simp [mapErase]
  | cons e rest ih =>
    by_cases he : e.1 = k
    · simp [mapErase, mapLookup, he, hk]
    · simp only [mapErase, he, if_false, mapLookup, ih]

theorem mapLookup_eq_none_of_not_mem {α β : Type} [DecidableEq α]
    (l : List (α × β)) (k : α) (h : k ∉ l.map Prod.fst) :
    mapLookup l k = none := by
  induction l with
  | nil => simp [mapLookup]
  | cons e rest ih =>
    simp only [List.map_cons, List.mem_cons, not_or] at h
    have he : ¬ e.1 = k := fun a => h.1 a.symm
    simp [mapLookup, he, ih h.2]

theorem mapLookup_eq_none_iff_not_mem {α β : Type} [DecidableEq α]
    (l : List (α × β)) (k : α) :
    mapLookup l k = none ↔ k ∉ l.map Prod.fst := by
  constructor
  · intro h hmem
    induction l with
    | nil => simp at hmem
    | cons e rest ih =>
      by_cases he : e.1 = k
      · simp [mapLookup, he] at h
      · simp only [mapLookup, he, if_false] at h
        simp only [List.map_cons, List.mem_cons] at hmem
        rcases hmem with hmem | hmem
        · exact he hmem.symm
        · exact ih h hmem
  · exact mapLookup_eq_none_of_not_mem l k

theorem mapLookup_erase_self {α β : Type} [DecidableEq α]
    (l : List (α × β)) (k : α) (hnd : (l.map Prod.fst).Nodup) :
    mapLookup (mapErase l k) k = none := by
  induction l with
  | nil => simp [mapErase, mapLookup]
  | cons e rest ih =>
    simp only [List.map_cons, List.nodup_cons] at hnd
    by_cases he : e.1 = k
    · simpa [mapErase, he] using mapLookup_eq_none_of_not_mem rest k (he ▸ hnd.1)
    · simp [mapErase, he, mapLookup, ih hnd.2]

theorem mapInsert_of_lookup_none {α β : Type} [DecidableEq α]
    (l : List (α × β)) (k : α) (v : β) (h : mapLookup l k = none) :
    mapInsert l k v = l ++ [(k, v)] := by
  induction l with
  | nil => simp [mapInsert]
  | cons e rest ih =>
    by_cases he : e.1 = k
    · simp [mapLookup, he] at h
    · simp only [mapLookup, he, if_false] at h
      simp [mapInsert, he, ih h]

theorem mapLookup_mem {α β : Type} [DecidableEq α]
    (l : List (α × β)) (k : α) (v : β) (h : mapLookup l k = some v) :
    (k, v) ∈ l := by
  induction l with
  | nil => simp [mapLookup] at h
  | cons e rest ih =>
    by_cases he : e.1 = k
    · simp only [mapLookup] at h
      rw [if_pos he] at h
      have hev : e = (k, v) := by
        cases e
        simp only at he
        simp only [Option.some.injEq] at h
        simp [he, h]
      rw [← hev]
      exact List.mem_cons_self _ _
    · simp only [mapLookup] at h
      rw [if_neg he] at h
      exact List.mem_cons_of_mem _ (ih h)

theorem mapErase_sublist {α β : Type} [DecidableEq α]
    (l : List (α × β)) (k : α) : (mapErase l k).Sublist l := by
  induction l with
  | nil => simp [mapErase]
  | cons e rest ih =>
    by_cases he : e.1 = k
    · simpa [mapErase, he] using (List.Sublist.refl rest).cons e
    · simpa [mapErase, he] using ih.cons₂ e

theorem mem_mapErase {α β : Type} [DecidableEq α]
    (l : List (α × β)) (k : α) (e : α × β) (h : e ∈ mapErase l k) :
    e ∈ l :=
  (mapErase_sublist l k).subset h

/-! ### Wrapping-arithmetic lemmas -/

theorem UINT64_MOD_pos : 0 < UINT64_MOD := by norm_num [UINT64_MOD]

theorem sub64_add64 (a b : Nat) : sub64 (add64 a b) b = a % UINT64_MOD := by
  simp only [sub64, add64, UINT64_MOD]
  omega

theorem sub64_of_add (a b : Nat) : sub64 ((a + b) % UINT64_MOD) b = a % UINT64_MOD := by
  simp only [sub64, UINT64_MOD]
  omega

theorem sub64_exact (a b : Nat) (hle : b ≤ a) (hlt : a < UINT64_MOD) :
    sub64 a b = a - b := by
  simp only [sub64, UINT64_MOD] at hlt ⊢
  omega

theorem add64_exact (a b : Nat) (h : a + b < UINT64_MOD) : add64 a b = a + b := by
  simp only [add64, UINT64_MOD] at h ⊢
  omega

/-! ### Helper facts about the operations -/

theorem deallocate_absent (st : Allocator) (p : Ptr)
    (h : mapLookup st.mAllocatedBlocks p = none) : st.deallocate p = st := by
  simp [Allocator.deallocate, h]

/-! ### Claim theorems -/

/-- C5: if the platform allocator cannot satisfy the request (returns null),
`Allocator::allocate` returns null and leaves the Block Ledger and every Scope
Aggregator entry exactly as they were before the call. -/
theorem allocate_platform_failure (st : Allocator) (size alignment : Nat)
    (scope : VkSystemAllocationScope) :
    st.allocate 0 size alignment scope = (none, st) := by
  simp [Allocator.allocate]

/-- C6: for a non-null pointer absent from the Block Ledger and a positive
size, `Allocator::reallocate` returns null and changes no state: no ledger
entry is created or erased, no aggregate entry is mutated, and the heap bytes
are untouched. -/
theorem reallocate_unknown_block (st : Allocator) (mem : Mem) (ret p : Ptr)
    (size alignment : Nat) (scope : VkSystemAllocationScope)
    (hp : p ≠ 0) (hsize : 0 < size)
    (habsent : mapLookup st.mAllocatedBlocks p = none) :
    st.reallocate mem ret p size alignment scope = (none, st, mem) := by
  simp [Allocator.reallocate, habsent]

theorem reallocate_unknown_block_witness :
    (1 : Ptr) ≠ 0 ∧ 0 < 8 ∧
    mapLookup (emptyAllocator).mAllocatedBlocks 1 = none ∧
    emptyAllocator.reallocate (fun _ _ => 0) 2 1 8 4 VkSystemAllocationScope.cache =
      (none, emptyAllocator, fun _ _ => 0) :=
  ⟨by decide, by decide, by decide,
   reallocate_unknown_block emptyAllocator (fun _ _ => 0) 2 1 8 4
     VkSystemAllocationScope.cache (by decide) (by decide) (by decide)⟩

/-- C10: `Allocator::deallocate_internal` unconditionally subtracts
`(size, 1)` from the scope's aggregate in wrapping (mod `2 ^ 64`) `size_t`
arithmetic, lazily creating a zero-valued entry first when the scope was never
touched, and leaves the Block Ledger unchanged; on a fresh scope the resulting
entry is `((2 ^ 64 - size % 2 ^ 64) % 2 ^ 64, 2 ^ 64 - 1)`. -/
theorem deallocate_internal_spec (st : Allocator) (size : Nat)
    (type : VkInternalAllocationType) (scope : VkSystemAllocationScope) :
    (st.deallocate_internal size type scope).mAllocatedBlocks = st.mAllocatedBlocks ∧
    getScope (st.deallocate_internal size type scope) scope =
      ⟨sub64 (getScope st scope).size size, sub64 (getScope st scope).count 1⟩ ∧
    (∀ s2, s2 ≠ scope →
      getScope (st.deallocate_internal size type scope) s2 = getScope st s2) ∧
    (mapLookup st.mOccupiedMemory scope = none →
      mapLookup (st.deallocate_internal size type scope).mOccupiedMemory scope =
        some ⟨(2 ^ 64 - size % 2 ^ 64) % 2 ^ 64, 2 ^ 64 - 1⟩) := by
  refine ⟨rfl, ?_, ?_, ?_⟩
  · simp [Allocator.deallocate_internal, getScope, mapLookup_insert_self]
  · intro s2 hs2
    simp [Allocator.deallocate_internal, getScope,
      mapLookup_insert_ne _ _ _ _ hs2]
  · intro h
    simp only [Allocator.deallocate_internal, getScope, h, Option.getD_none,
      mapLookup_insert_self]
    have h1 : sub64 0 size = (2 ^ 64 - size % 2 ^ 64) % 2 ^ 64 := by
      simp only [sub64, UINT64_MOD]
      norm_num
    have h2 : sub64 0 1 = 2 ^ 64 - 1 := by
      simp only [sub64, UINT64_MOD]
      norm_num
    rw [h1, h2]

theorem deallocate_internal_spec_witness :
    mapLookup emptyAllocator.mOccupiedMemory VkSystemAllocationScope.device = none ∧
    mapLookup (emptyAllocator.deallocate_internal 32 VkInternalAllocationType.executable
        VkSystemAllocationScope.device).mOccupiedMemory VkSystemAllocationScope.device =
      some ⟨(2 ^ 64 - 32 % 2 ^ 64) % 2 ^ 64, 2 ^ 64 - 1⟩ :=
  ⟨by decide,
   (deallocate_internal_spec emptyAllocator 32 VkInternalAllocationType.executable
     VkSystemAllocationScope.device).2.2.2 (by decide)⟩

/-- C9: the `cqdeVk::reallocate` callback trampoline maps `size == 0` to
`deallocate(pointer)` plus a null result with no allocation attempted (the
platform oracle is never consulted), and maps a null pointer with positive
size to a fresh `Allocator::allocate`, returning that allocation's result. -/
theorem reallocate_trampoline_spec (st : Allocator) (mem : Mem) (ret p : Ptr)
    (size alignment : Nat) (scope : VkSystemAllocationScope) :
    reallocate st mem ret p 0 alignment scope = (none, st.deallocate p, mem) ∧
    (0 < size → reallocate st mem ret 0 size alignment scope =
      ((st.allocate ret size alignment scope).1,
       (st.allocate ret size alignment scope).2, mem)) := by
  constructor
  · simp [reallocate]
  · intro hs
    have h0 : ¬ size = 0 := Nat.pos_iff_ne_zero.mp hs
    simp [reallocate, h0]

theorem reallocate_trampoline_spec_witness :
    reallocate ⟨[(7, ⟨4, 4, VkSystemAllocationScope.object⟩)],
        [(VkSystemAllocationScope.object, ⟨4, 1⟩)]⟩ (fun _ _ => 0) 9 7 0 4
        VkSystemAllocationScope.object =
      (none, Allocator.deallocate ⟨[(7, ⟨4, 4, VkSystemAllocationScope.object⟩)],
        [(VkSystemAllocationScope.object, ⟨4, 1⟩)]⟩ 7, fun _ _ => 0) ∧
    reallocate emptyAllocator (fun _ _ => 0) 9 0 16 4 VkSystemAllocationScope.object =
      ((emptyAllocator.allocate 9 16 4 VkSystemAllocationScope.object).1,
       (emptyAllocator.allocate 9 16 4 VkSystemAllocationScope.object).2, fun _ _ => 0) :=
  ⟨(reallocate_trampoline_spec ⟨[(7, ⟨4, 4, VkSystemAllocationScope.object⟩)],
      [(VkSystemAllocationScope.object, ⟨4, 1⟩)]⟩ (fun _ _ => 0) 9 7 16 4
      VkSystemAllocationScope.object).1,
   (reallocate_trampoline_spec emptyAllocator (fun _ _ => 0) 9 7 16 4
      VkSystemAllocationScope.object).2 (by decide)⟩

/-- C4: `Allocator::deallocate` on an address absent from the Block Ledger
changes no state (so a second deallocate of the same address is a no-op with
no double-decrement), while on a recorded block it erases the ledger entry,
subtracts exactly `(block.size, 1)` from that block's scope aggregate (exact
natural-number subtraction whenever the `size_t` arithmetic cannot wrap), and
changes no other ledger entry or aggregate entry. -/
theorem deallocate_spec (st : Allocator) (p : Ptr)
    (hnd : (st.mAllocatedBlocks.map Prod.fst).Nodup) :
    (mapLookup st.mAllocatedBlocks p = none → st.deallocate p = st) ∧
    (∀ b, mapLookup st.mAllocatedBlocks p = some b →
      mapLookup (st.deallocate p).mAllocatedBlocks p = none ∧
      (st.deallocate p).deallocate p = st.deallocate p ∧
      getScope (st.deallocate p) b.scope =
        ⟨sub64 (getScope st b.scope).size b.size,
         sub64 (getScope st b.scope).count 1⟩ ∧
      (b.size ≤ (getScope st b.scope).size → (getScope st b.scope).size < UINT64_MOD →
        (getScope (st.deallocate p) b.scope).size = (getScope st b.scope).size - b.size) ∧
      (1 ≤ (getScope st b.scope).count → (getScope st b.scope).count < UINT64_MOD →
        (getScope (st.deallocate p) b.scope).count = (getScope st b.scope).count - 1) ∧
      (∀ q, q ≠ p → mapLookup (st.deallocate p).mAllocatedBlocks q =
        mapLookup st.mAllocatedBlocks q) ∧
      (∀ s2, s2 ≠ b.scope → getScope (st.deallocate p) s2 = getScope st s2)) := by
  refine ⟨deallocate_absent st p, ?_⟩
  intro b hb
  have hblocks : (st.deallocate p).mAllocatedBlocks = mapErase st.mAllocatedBlocks p := by
    simp [Allocator.deallocate, hb]
  have hocc : (st.deallocate p).mOccupiedMemory =
      mapInsert st.mOccupiedMemory b.scope
        ⟨sub64 (getScope st b.scope).size b.size, sub64 (getScope st b.scope).count 1⟩ := by
    simp [Allocator.deallocate, hb]
  have herased : mapLookup (st.deallocate p).mAllocatedBlocks p = none := by
    rw [hblocks]
    exact mapLookup_erase_self _ _ hnd
  have hscope : getScope (st.deallocate p) b.scope =
      ⟨sub64 (getScope st b.scope).size b.size, sub64 (getScope st b.scope).count 1⟩ := by
    simp [getScope, hocc, mapLookup_insert_self]
  refine ⟨herased, deallocate_absent _ p herased, hscope, ?_, ?_, ?_, ?_⟩
  · intro hle hlt
    rw [hscope]
    exact sub64_exact _ _ hle hlt
  · intro hle hlt
    rw [hscope]
    exact sub64_exact _ _ hle hlt
  · intro q hq
    rw [hblocks]
    exact mapLookup_erase_ne _ _ _ hq
  · intro s2 hs2
    simp [getScope, hocc, mapLookup_insert_ne _ _ _ _ hs2]

theorem deallocate_spec_witness :
    mapLookup ((⟨[(5, ⟨16, 8, VkSystemAllocationScope.cache⟩)],
        [(VkSystemAllocationScope.cache, ⟨16, 1⟩)]⟩ : Allocator).deallocate 5).mAllocatedBlocks 5 =
      none ∧
    getScope ((⟨[(5, ⟨16, 8, VkSystemAllocationScope.cache⟩)],
        [(VkSystemAllocationScope.cache, ⟨16, 1⟩)]⟩ : Allocator).deallocate 5)
        VkSystemAllocationScope.cache =
      ⟨sub64 16 16, sub64 1 1⟩ :=
  ⟨((deallocate_spec ⟨[(5, ⟨16, 8, VkSystemAllocationScope.cache⟩)],
      [(VkSystemAllocationScope.cache, ⟨16, 1⟩)]⟩ 5 (by decide)).2
      ⟨16, 8, VkSystemAllocationScope.cache⟩ (by decide)).1,
   ((deallocate_spec ⟨[(5, ⟨16, 8, VkSystemAllocationScope.cache⟩)],
      [(VkSystemAllocationScope.cache, ⟨16, 1⟩)]⟩ 5 (by decide)).2
      ⟨16, 8, VkSystemAllocationScope.cache⟩ (by decide)).2.2.1⟩

/-- C1: when the platform allocator answers a successful
`Allocator::allocate(size, alignment, scope)` with a fresh non-null address,
the call returns that address, the Block Ledger gains exactly one new entry —
keyed by the address and recording `(size, alignment, scope)` — every other
ledger entry is unchanged, the Scope Aggregator entry for `scope` grows by
exactly `(size, 1)` (exact natural addition whenever the `size_t` sums cannot
wrap), and every other aggregate entry is unchanged. -/
theorem allocate_success_spec (st : Allocator) (ret : Ptr) (size alignment : Nat)
    (scope : VkSystemAllocationScope) (res : Option Ptr) (st1 : Allocator)
    (hsize : 0 < size) (halign : ∃ k, alignment = 2 ^ k) (hret : ret ≠ 0)
    (hfresh : mapLookup st.mAllocatedBlocks ret = none)
    (heq : st.allocate ret size alignment scope = (res, st1)) :
    res = some ret ∧
    mapLookup st1.mAllocatedBlocks ret = some ⟨size, alignment, scope⟩ ∧
    (∀ q, q ≠ ret → mapLookup st1.mAllocatedBlocks q = mapLookup st.mAllocatedBlocks q) ∧
    st1.mAllocatedBlocks.length = st.mAllocatedBlocks.length + 1 ∧
    getScope st1 scope =
      ⟨add64 (getScope st scope).size size, add64 (getScope st scope).count 1⟩ ∧
    ((getScope st scope).size + size < UINT64_MOD →
      (getScope st1 scope).size = (getScope st scope).size + size) ∧
    ((getScope st scope).count + 1 < UINT64_MOD →
      (getScope st1 scope).count = (getScope st scope).count + 1) ∧
    (∀ s2, s2 ≠ scope → getScope st1 s2 = getScope st s2) := by
  simp only [Allocator.allocate, hret, if_false, Prod.mk.injEq] at heq
  obtain ⟨hres, hst1⟩ := heq
  subst hst1
  refine ⟨hres.symm, ?_, ?_, ?_, ?_, ?_, ?_, ?_⟩
  · exact mapLookup_insert_self _ _ _
  · intro q hq
    exact mapLookup_insert_ne _ _ _ _ hq
  · rw [mapInsert_of_lookup_none _ _ _ hfresh]
    simp
  · simp [getScope, mapLookup_insert_self]
  · intro hlt
    simp only [getScope, mapLookup_insert_self, Option.getD_some]
    exact add64_exact _ _ hlt
  · intro hlt
    simp only [getScope, mapLookup_insert_self, Option.getD_some]
    exact add64_exact _ _ hlt
  · intro s2 hs2
    simp [getScope, mapLookup_insert_ne _ _ _ _ hs2]

theorem allocate_success_spec_witness :
    0 < 64 ∧ (∃ k, (16 : Nat) = 2 ^ k) ∧ (8 : Ptr) ≠ 0 ∧
    mapLookup emptyAllocator.mAllocatedBlocks 8 = none ∧
    mapLookup (emptyAllocator.allocate 8 64 16
        VkSystemAllocationScope.cache).2.mAllocatedBlocks 8 =
      some ⟨64, 16, VkSystemAllocationScope.cache⟩ :=
  ⟨by decide, ⟨4, by norm_num⟩, by decide, by decide,
   (allocate_success_spec emptyAllocator 8 64 16 VkSystemAllocationScope.cache
     (emptyAllocator.allocate 8 64 16 VkSystemAllocationScope.cache).1
     (emptyAllocator.allocate 8 64 16 VkSystemAllocationScope.cache).2
     (by decide) ⟨4, by norm_num⟩ (by decide) (by decide) rfl).2.1⟩

/-- C8: from any starting state whose aggregate for `S` holds genuine `size_t`
values, `allocate(N, A, S)` answered with a non-null address `p`, followed
immediately by `deallocate(p)`, returns the Scope Aggregator entry for `S` to
exactly its pre-call `(size, count)`. -/
theorem allocate_deallocate_roundtrip (st : Allocator) (ret : Ptr) (N A : Nat)
    (S : VkSystemAllocationScope) (p : Ptr) (st1 : Allocator)
    (hN : 0 < N)
    (hsz : (getScope st S).size < UINT64_MOD)
    (hct : (getScope st S).count < UINT64_MOD)
    (heq : st.allocate ret N A S = (some p, st1)) :
    getScope (st1.deallocate p) S = getScope st S := by
  by_cases hret : ret = 0
  · rw [hret] at heq
    simp [Allocator.allocate] at heq
  · simp only [Allocator.allocate, hret, if_false, Prod.mk.injEq,
      Option.some.injEq] at heq
    obtain ⟨hp, hst1⟩ := heq
    subst hst1
    subst hp
    simp only [Allocator.deallocate, mapLookup_insert_self, getScope,
      mapLookup_insert_self, Option.getD_some, sub64_add64]
    simp only [getScope] at hsz hct
    rw [Nat.mod_eq_of_lt hsz, Nat.mod_eq_of_lt hct]

theorem allocate_deallocate_roundtrip_witness :
    0 < 64 ∧
    (getScope emptyAllocator VkSystemAllocationScope.device).size < UINT64_MOD ∧
    (getScope emptyAllocator VkSystemAllocationScope.device).count < UINT64_MOD ∧
    getScope (((emptyAllocator.allocate 3 64 16 VkSystemAllocationScope.device).2).deallocate 3)
        VkSystemAllocationScope.device =
      getScope emptyAllocator VkSystemAllocationScope.device :=
  ⟨by decide, by decide, by decide,
   allocate_deallocate_roundtrip emptyAllocator 3 64 16 VkSystemAllocationScope.device 3
     (emptyAllocator.allocate 3 64 16 VkSystemAllocationScope.device).2
     (by decide) (by decide) (by decide) rfl⟩

/-- C3: when `Allocator::reallocate` on a recorded block fails because the
fresh internal allocation returns null, it returns null and the entire state
(ledger, aggregates, heap bytes) is unchanged; consequently a subsequent
`deallocate(p)` still erases the entry and subtracts the original
`(size, 1)` from the original scope's aggregate. -/
theorem reallocate_failure_intact (st : Allocator) (mem : Mem) (p : Ptr)
    (size alignment : Nat) (scope : VkSystemAllocationScope) (b : AllocatedBlock)
    (hb : mapLookup st.mAllocatedBlocks p = some b)
    (hsize : 0 < size) (halign : alignment = b.alignment)
    (hnd : (st.mAllocatedBlocks.map Prod.fst).Nodup) :
    st.reallocate mem 0 p size alignment scope = (none, st, mem) ∧
    mapLookup (st.deallocate p).mAllocatedBlocks p = none ∧
    getScope (st.deallocate p) b.scope =
      ⟨sub64 (getScope st b.scope).size b.size,
       sub64 (getScope st b.scope).count 1⟩ := by
  have hblocks : (st.deallocate p).mAllocatedBlocks = mapErase st.mAllocatedBlocks p := by
    simp [Allocator.deallocate, hb]
  have hocc : (st.deallocate p).mOccupiedMemory =
      mapInsert st.mOccupiedMemory b.scope
        ⟨sub64 (getScope st b.scope).size b.size,
         sub64 (getScope st b.scope).count 1⟩ := by
    simp [Allocator.deallocate, hb]
  refine ⟨?_, ?_, ?_⟩
  · simp [Allocator.reallocate, hb, Allocator.allocate]
  · rw [hblocks]
    exact mapLookup_erase_self _ _ hnd
  · simp [getScope, hocc, mapLookup_insert_self]

theorem reallocate_failure_intact_witness :
    mapLookup (⟨[(5, ⟨16, 8, VkSystemAllocationScope.object⟩)],
        [(VkSystemAllocationScope.object, ⟨16, 1⟩)]⟩ : Allocator).mAllocatedBlocks 5 =
      some ⟨16, 8, VkSystemAllocationScope.object⟩ ∧
    (⟨[(5, ⟨16, 8, VkSystemAllocationScope.object⟩)],
        [(VkSystemAllocationScope.object, ⟨16, 1⟩)]⟩ : Allocator).reallocate
        (fun _ _ => 0) 0 5 32 8 VkSystemAllocationScope.object =
      (none, ⟨[(5, ⟨16, 8, VkSystemAllocationScope.object⟩)],
        [(VkSystemAllocationScope.object, ⟨16, 1⟩)]⟩, fun _ _ => 0) :=
  ⟨by decide,
   (reallocate_failure_intact ⟨[(5, ⟨16, 8, VkSystemAllocationScope.object⟩)],
      [(VkSystemAllocationScope.object, ⟨16, 1⟩)]⟩ (fun _ _ => 0) 5 32 8
      VkSystemAllocationScope.object ⟨16, 8, VkSystemAllocationScope.object⟩
      (by decide) (by decide) (by decide) (by decide)).1⟩

/-- C2: `Allocator::reallocate` on a recorded block `(old size, alignment,
old scope)` whose fresh internal allocation succeeds at a fresh non-null
address returns that address (distinct from the old pointer), copies the first
`min(size, old size)` bytes of the old block into it, erases the old ledger
entry and inserts a new one recording `(size, alignment, scope)`, leaves every
other ledger entry unchanged, and moves the aggregates by adding `(size, 1)`
to `scope` and then subtracting `(old size, 1)` from the old block's scope, in
wrapping `size_t` arithmetic. -/
theorem reallocate_success_spec (st : Allocator) (mem : Mem) (ret p : Ptr)
    (size alignment : Nat) (scope : VkSystemAllocationScope) (b : AllocatedBlock)
    (res : Option Ptr) (st2 : Allocator) (mem2 : Mem)
    (hb : mapLookup st.mAllocatedBlocks p = some b)
    (hsize : 0 < size) (halign : alignment = b.alignment)
    (hret : ret ≠ 0) (hfresh : mapLookup st.mAllocatedBlocks ret = none)
    (hnd : (st.mAllocatedBlocks.map Prod.fst).Nodup)
    (heq : st.reallocate mem ret p size alignment scope = (res, st2, mem2)) :
    res = some ret ∧ ret ≠ p ∧
    (∀ i, i < min size b.size → mem2 ret i = mem p i) ∧
    mapLookup st2.mAllocatedBlocks p = none ∧
    mapLookup st2.mAllocatedBlocks ret = some ⟨size, alignment, scope⟩ ∧
    (∀ q, q ≠ p → q ≠ ret →
      mapLookup st2.mAllocatedBlocks q = mapLookup st.mAllocatedBlocks q) ∧
    (∀ s2, getScope st2 s2 =
      if s2 = b.scope then
        ⟨sub64 (if b.scope = scope then add64 (getScope st scope).size size
                else (getScope st b.scope).size) b.size,
         sub64 (if b.scope = scope then add64 (getScope st scope).count 1
                else (getScope st b.scope).count) 1⟩
      else if s2 = scope then
        ⟨add64 (getScope st scope).size size, add64 (getScope st scope).count 1⟩
      else getScope st s2) := by
  have hnp : ret ≠ p := by
    intro h
    rw [h, hb] at hfresh
    cases hfresh
  have hall : st.allocate ret size alignment scope =
      (some ret, ⟨mapInsert st.mAllocatedBlocks ret ⟨size, alignment, scope⟩,
        mapInsert st.mOccupiedMemory scope
          ⟨add64 (getScope st scope).size size, add64 (getScope st scope).count 1⟩⟩) := by
    simp [Allocator.allocate, hret, getScope]
  simp only [Allocator.reallocate, hb, hall] at heq
  have hlp : mapLookup (mapInsert st.mAllocatedBlocks ret ⟨size, alignment, scope⟩) p =
      some b := by
    rw [mapLookup_insert_ne _ _ _ _ (fun a => hnp a.symm)]
    exact hb
  simp only [Allocator.deallocate, hlp, Prod.mk.injEq] at heq
  obtain ⟨hres, hst2, hmem2⟩ := heq
  subst hst2
  subst hmem2
  have hnd1 : ((mapInsert st.mAllocatedBlocks ret
      ⟨size, alignment, scope⟩).map Prod.fst).Nodup := by
    rw [mapInsert_of_lookup_none _ _ _ hfresh, List.map_append]
    rw [List.nodup_append]
    refine ⟨hnd, by simp, ?_⟩
    intro a ha
    simp only [List.map_cons, List.map_nil, List.mem_singleton]
    intro hc
    subst hc
    exact (mapLookup_eq_none_iff_not_mem _ _).mp hfresh ha
  refine ⟨hres.symm, hnp, ?_, ?_, ?_, ?_, ?_⟩
  · intro i hi
    simp [memcpy, hi]
  · exact mapLookup_erase_self _ _ hnd1
  · rw [mapLookup_erase_ne _ _ _ hnp]
    exact mapLookup_insert_self _ _ _
  · intro q hqp hqr
    rw [mapLookup_erase_ne _ _ _ hqp]
    exact mapLookup_insert_ne _ _ _ _ hqr
  · intro s2
    by_cases hs2 : s2 = b.scope
    · rw [if_pos hs2, hs2]
      by_cases hbs : b.scope = scope
      · simp [getScope, hbs, mapLookup_insert_self]
      · simp [getScope, hbs, mapLookup_insert_self,
          mapLookup_insert_ne _ _ _ _ hbs]
    · rw [if_neg hs2]
      by_cases hsc : s2 = scope
      · have hsb : ¬ scope = b.scope := by
          rw [← hsc]
          exact hs2
        simp [getScope, hsc, mapLookup_insert_ne _ _ _ _ hsb,
          mapLookup_insert_self]
      · simp [getScope, hsc, mapLookup_insert_ne _ _ _ _ hs2,
          mapLookup_insert_ne _ _ _ _ hsc]

theorem reallocate_success_spec_witness :
    mapLookup ((⟨[(5, ⟨2, 8, VkSystemAllocationScope.object⟩)],
        [(VkSystemAllocationScope.object, ⟨2, 1⟩)]⟩ : Allocator).reallocate
        (fun p i => p + i) 9 5 4 8 VkSystemAllocationScope.cache).2.1.mAllocatedBlocks 9 =
      some ⟨4, 8, VkSystemAllocationScope.cache⟩ ∧
    ((⟨[(5, ⟨2, 8, VkSystemAllocationScope.object⟩)],
        [(VkSystemAllocationScope.object, ⟨2, 1⟩)]⟩ : Allocator).reallocate
        (fun p i => p + i) 9 5 4 8 VkSystemAllocationScope.cache).2.2 9 1 = 5 + 1 :=
  ⟨((reallocate_success_spec ⟨[(5, ⟨2, 8, VkSystemAllocationScope.object⟩)],
      [(VkSystemAllocationScope.object, ⟨2, 1⟩)]⟩ (fun p i => p + i) 9 5 4 8
      VkSystemAllocationScope.cache ⟨2, 8, VkSystemAllocationScope.object⟩
      _ _ _ (by decide) (by decide) (by decide) (by decide) (by decide) (by decide)
      rfl).2.2.2.2.1),
   ((reallocate_success_spec ⟨[(5, ⟨2, 8, VkSystemAllocationScope.object⟩)],
      [(VkSystemAllocationScope.object, ⟨2, 1⟩)]⟩ (fun p i => p + i) 9 5 4 8
      VkSystemAllocationScope.cache ⟨2, 8, VkSystemAllocationScope.object⟩
      _ _ _ (by decide) (by decide) (by decide) (by decide) (by decide) (by decide)
      rfl).2.2.1 1 (by decide))⟩

/-! ### Reachability and the ledger/aggregate invariant -/

/-- Total bytes of live ledger blocks recorded for one scope. -/
def scopeSizeSum : List (Ptr × AllocatedBlock) → VkSystemAllocationScope → Nat
  | [], _ => 0
  | e :: rest, s => (if e.2.scope = s then e.2.size else 0) + scopeSizeSum rest s

/-- Number of live ledger blocks recorded for one scope. -/
def scopeBlockCount : List (Ptr × AllocatedBlock) → VkSystemAllocationScope → Nat
  | [], _ => 0
  | e :: rest, s => (if e.2.scope = s then 1 else 0) + scopeBlockCount rest s

/-- One callback-driven transition of the `Allocator`: any of the five
operations, with the spec's preconditions (positive size for
allocate/reallocate) and the platform guarantee that a successful
`std::aligned_alloc` answer is an address not currently allocated. -/
inductive Step : Allocator → Allocator → Prop where
  | alloc (st : Allocator) (ret : Ptr) (size alignment : Nat)
      (scope : VkSystemAllocationScope) (hsize : 0 < size)
      (hfresh : ret ≠ 0 → mapLookup st.mAllocatedBlocks ret = none) :
      Step st (st.allocate ret size alignment scope).2
  | realloc (st : Allocator) (mem : Mem) (ret data : Ptr) (size alignment : Nat)
      (scope : VkSystemAllocationScope) (hsize : 0 < size)
      (hfresh : ret ≠ 0 → mapLookup st.mAllocatedBlocks ret = none) :
      Step st (st.reallocate mem ret data size alignment scope).2.1
  | dealloc (st : Allocator) (data : Ptr) : Step st (st.deallocate data)
  | allocInternal (st : Allocator) (size : Nat) (type : VkInternalAllocationType)
      (scope : VkSystemAllocationScope) : Step st (st.allocate_internal size type scope)
  | deallocInternal (st : Allocator) (size : Nat) (type : VkInternalAllocationType)
      (scope : VkSystemAllocationScope) : Step st (st.deallocate_internal size type scope)

/-- States reachable from the empty `Allocator` by any sequence of the five
operations. -/
inductive Reachable : Allocator → Prop where
  | init : Reachable emptyAllocator
  | step {st st2 : Allocator} : Reachable st → Step st st2 → Reachable st2

/-- A transition by the externally addressable operations only
(no internal notifications). -/
inductive StepExt : Allocator → Allocator → Prop where
  | alloc (st : Allocator) (ret : Ptr) (size alignment : Nat)
      (scope : VkSystemAllocationScope) (hsize : 0 < size)
      (hfresh : ret ≠ 0 → mapLookup st.mAllocatedBlocks ret = none) :
      StepExt st (st.allocate ret size alignment scope).2
  | realloc (st : Allocator) (mem : Mem) (ret data : Ptr) (size alignment : Nat)
      (scope : VkSystemAllocationScope) (hsize : 0 < size)
      (hfresh : ret ≠ 0 → mapLookup st.mAllocatedBlocks ret = none) :
      StepExt st (st.reallocate mem ret data size alignment scope).2.1
  | dealloc (st : Allocator) (data : Ptr) : StepExt st (st.deallocate data)

/-- States reachable from the empty `Allocator` using only allocate,
reallocate and deallocate. -/
inductive ReachableExt : Allocator → Prop where
  | init : ReachableExt emptyAllocator
  | step {st st2 : Allocator} : ReachableExt st → StepExt st st2 → ReachableExt st2

/-- The inductive invariant of the external operations: every scope aggregate
is exactly the wrapped sum/count of the live ledger blocks of that scope,
every ledger block has positive size, and every ledger block's scope has an
aggregate entry. -/
def InvExt (st : Allocator) : Prop :=
  (∀ s, getScope st s =
    ⟨scopeSizeSum st.mAllocatedBlocks s % UINT64_MOD,
     scopeBlockCount st.mAllocatedBlocks s % UINT64_MOD⟩) ∧
  (∀ e ∈ st.mAllocatedBlocks, 0 < e.2.size) ∧
  (∀ e ∈ st.mAllocatedBlocks, (mapLookup st.mOccupiedMemory e.2.scope).isSome)

theorem scopeSizeSum_append (l1 l2 : List (Ptr × AllocatedBlock))
    (s : VkSystemAllocationScope) :
    scopeSizeSum (l1 ++ l2) s = scopeSizeSum l1 s + scopeSizeSum l2 s := by
  induction l1 with
  | nil => simp [scopeSizeSum]
  | cons e rest ih => simp [scopeSizeSum, ih]; omega

theorem scopeBlockCount_append (l1 l2 : List (Ptr × AllocatedBlock))
    (s : VkSystemAllocationScope) :
    scopeBlockCount (l1 ++ l2) s = scopeBlockCount l1 s + scopeBlockCount l2 s := by
  induction l1 with
  | nil => simp [scopeBlockCount]
  | cons e rest ih => simp [scopeBlockCount, ih]; omega

theorem scopeSizeSum_erase (l : List (Ptr × AllocatedBlock)) (k : Ptr)
    (b : AllocatedBlock) (hb : mapLookup l k = some b) (s : VkSystemAllocationScope) :
    scopeSizeSum l s =
      scopeSizeSum (mapErase l k) s + (if b.scope = s then b.size else 0) := by
  induction l with
  | nil => simp [mapLookup] at hb
  | cons e rest ih =>
    by_cases he : e.1 = k
    · simp only [mapLookup] at hb
      rw [if_pos he] at hb
      have hev : e.2 = b := Option.some.inj hb
      simp [mapErase, he, scopeSizeSum, hev]
      omega
    · simp only [mapLookup] at hb
      rw [if_neg he] at hb
      simp [mapErase, he, scopeSizeSum, ih hb]
      omega

theorem scopeBlockCount_erase (l : List (Ptr × AllocatedBlock)) (k : Ptr)
    (b : AllocatedBlock) (hb : mapLookup l k = some b) (s : VkSystemAllocationScope) :
    scopeBlockCount l s =
      scopeBlockCount (mapErase l k) s + (if b.scope = s then 1 else 0) := by
  induction l with
  | nil => simp [mapLookup] at hb
  | cons e rest ih =>
    by_cases he : e.1 = k
    · simp only [mapLookup] at hb
      rw [if_pos he] at hb
      have hev : e.2 = b := Option.some.inj hb
      simp [mapErase, he, scopeBlockCount, hev]
      omega
    · simp only [mapLookup] at hb
      rw [if_neg he] at hb
      simp [mapErase, he, scopeBlockCount, ih hb]
      omega

theorem lookup_le_scopeSizeSum (l : List (Ptr × AllocatedBlock)) (k : Ptr)
    (b : AllocatedBlock) (hb : mapLookup l k = some b) :
    b.size ≤ scopeSizeSum l b.scope := by
  induction l with
  | nil => simp [mapLookup] at hb
  | cons e rest ih =>
    by_cases he : e.1 = k
    · simp only [mapLookup] at hb
      rw [if_pos he] at hb
      have hev : e.2 = b := Option.some.inj hb
      simp [scopeSizeSum, hev]
    · simp only [mapLookup] at hb
      rw [if_neg he] at hb
      simp only [scopeSizeSum]
      have := ih hb
      omega

theorem lookup_one_le_scopeBlockCount (l : List (Ptr × AllocatedBlock)) (k : Ptr)
    (b : AllocatedBlock) (hb : mapLookup l k = some b) :
    1 ≤ scopeBlockCount l b.scope := by
  induction l with
  | nil => simp [mapLookup] at hb
  | cons e rest ih =>
    by_cases he : e.1 = k
    · simp only [mapLookup] at hb
      rw [if_pos he] at hb
      have hev : e.2 = b := Option.some.inj hb
      simp [scopeBlockCount, hev]
    · simp only [mapLookup] at hb
      rw [if_neg he] at hb
      simp only [scopeBlockCount]
      have := ih hb
      omega

theorem scopeBlockCount_le_sizeSum (l : List (Ptr × AllocatedBlock))
    (s : VkSystemAllocationScope) (hpos : ∀ e ∈ l, 0 < e.2.size) :
    scopeBlockCount l s ≤ scopeSizeSum l s := by
  induction l with
  | nil => simp [scopeBlockCount, scopeSizeSum]
  | cons e rest ih =>
    have hrest := ih (fun e2 he2 => hpos e2 (List.mem_cons_of_mem _ he2))
    have hhead := hpos e (List.mem_cons_self _ _)
    simp only [scopeBlockCount, scopeSizeSum]
    by_cases hs : e.2.scope = s <;> simp [hs] <;> omega

theorem invExt_empty : InvExt emptyAllocator := by
  refine ⟨?_, ?_, ?_⟩
  · intro s
    simp [getScope, emptyAllocator, mapLookup, scopeSizeSum, scopeBlockCount]
  · intro e he
    simp [emptyAllocator] at he
  · intro e he
    simp [emptyAllocator] at he

theorem invExt_allocate (st : Allocator) (ret : Ptr) (size alignment : Nat)
    (scope : VkSystemAllocationScope) (hinv : InvExt st) (hsize : 0 < size)
    (hfresh : ret ≠ 0 → mapLookup st.mAllocatedBlocks ret = none) :
    InvExt (st.allocate ret size alignment scope).2 := by
  by_cases hret : ret = 0
  · subst hret
    simpa [Allocator.allocate] using hinv
  · obtain ⟨hagg, hpos, hex⟩ := hinv
    have hfr := hfresh hret
    have hblocks : (st.allocate ret size alignment scope).2.mAllocatedBlocks =
        st.mAllocatedBlocks ++ [(ret, ⟨size, alignment, scope⟩)] := by
      simp [Allocator.allocate, hret, mapInsert_of_lookup_none _ _ _ hfr]
    have hocc : (st.allocate ret size alignment scope).2.mOccupiedMemory =
        mapInsert st.mOccupiedMemory scope
          ⟨add64 (getScope st scope).size size, add64 (getScope st scope).count 1⟩ := by
      simp [Allocator.allocate, hret, getScope]
    refine ⟨?_, ?_, ?_⟩
    · intro s
      rw [getScope, hocc, hblocks, scopeSizeSum_append, scopeBlockCount_append]
      by_cases hs : s = scope
      · subst hs
        rw [mapLookup_insert_self, Option.getD_some, hagg s]
        simp only [scopeSizeSum, scopeBlockCount, if_pos rfl, add64]
        simp [Nat.mod_add_mod]
      · rw [mapLookup_insert_ne _ _ _ _ hs]
        have hne : ¬ (⟨size, alignment, scope⟩ : AllocatedBlock).scope = s :=
          fun a => hs a.symm
        simp only [scopeSizeSum, scopeBlockCount, if_neg hne]
        simpa using hagg s
    · intro e he
      rw [hblocks] at he
      rcases List.mem_append.mp he with he | he
      · exact hpos e he
      · simp only [List.mem_singleton] at he
        subst he
        exact hsize
    · intro e he
      rw [hblocks] at he
      rw [hocc]
      by_cases hs : e.2.scope = scope
      · rw [hs, mapLookup_insert_self]
        rfl
      · rw [mapLookup_insert_ne _ _ _ _ hs]
        rcases List.mem_append.mp he with he | he
        · exact hex e he
        · simp only [List.mem_singleton] at he
          subst he
          simp at hs

theorem invExt_deallocate (st : Allocator) (data : Ptr) (hinv : InvExt st) :
    InvExt (st.deallocate data) := by
  obtain ⟨hagg, hpos, hex⟩ := hinv
  rcases hlk : mapLookup st.mAllocatedBlocks data with _ | b
  · rw [deallocate_absent st data hlk]
    exact ⟨hagg, hpos, hex⟩
  · have hblocks : (st.deallocate data).mAllocatedBlocks =
        mapErase st.mAllocatedBlocks data := by
      simp [Allocator.deallocate, hlk]
    have hocc : (st.deallocate data).mOccupiedMemory =
        mapInsert st.mOccupiedMemory b.scope
          ⟨sub64 (getScope st b.scope).size b.size,
           sub64 (getScope st b.scope).count 1⟩ := by
      simp [Allocator.deallocate, hlk]
    refine ⟨?_, ?_, ?_⟩
    · intro s
      rw [getScope, hocc, hblocks]
      by_cases hs : s = b.scope
      · subst hs
        rw [mapLookup_insert_self, Option.getD_some, hagg b.scope]
        have hsplit := scopeSizeSum_erase _ _ _ hlk b.scope
        have hsplit2 := scopeBlockCount_erase _ _ _ hlk b.scope
        rw [if_pos rfl] at hsplit
        rw [if_pos rfl] at hsplit2
        simp only [hsplit, hsplit2]
        rw [sub64_of_add, sub64_of_add]
      · rw [mapLookup_insert_ne _ _ _ _ hs]
        have hsplit := scopeSizeSum_erase _ _ _ hlk s
        have hsplit2 := scopeBlockCount_erase _ _ _ hlk s
        have hne : ¬ b.scope = s := fun a => hs a.symm
        rw [if_neg hne] at hsplit
        rw [if_neg hne] at hsplit2
        have h := hagg s
        rw [getScope] at h
        rw [h, hsplit, hsplit2]
        simp
    · intro e he
      rw [hblocks] at he
      exact hpos e (mem_mapErase _ _ _ he)
    · intro e he
      rw [hblocks] at he
      rw [hocc]
      by_cases hs : e.2.scope = b.scope
      · rw [hs, mapLookup_insert_self]
        rfl
      · rw [mapLookup_insert_ne _ _ _ _ hs]
        exact hex e (mem_mapErase _ _ _ he)

theorem invExt_reallocate (st : Allocator) (mem : Mem) (ret data : Ptr)
    (size alignment : Nat) (scope : VkSystemAllocationScope)
    (hinv : InvExt st) (hsize : 0 < size)
    (hfresh : ret ≠ 0 → mapLookup st.mAllocatedBlocks ret = none) :
    InvExt (st.reallocate mem ret data size alignment scope).2.1 := by
  rcases hlk : mapLookup st.mAllocatedBlocks data with _ | b
  · simpa [Allocator.reallocate, hlk] using hinv
  · by_cases hret : ret = 0
    · subst hret
      simpa [Allocator.reallocate, hlk, Allocator.allocate] using hinv
    · have hall : st.allocate ret size alignment scope =
          (some ret, (st.allocate ret size alignment scope).2) := by
        simp [Allocator.allocate, hret]
      have hred : (st.reallocate mem ret data size alignment scope).2.1 =
          ((st.allocate ret size alignment scope).2).deallocate data := by
        simp only [Allocator.reallocate, hlk]
        rw [hall]
      rw [hred]
      exact invExt_deallocate _ _ (invExt_allocate _ _ _ _ _ hinv hsize hfresh)

theorem reachableExt_invExt (st : Allocator) (h : ReachableExt st) : InvExt st := by
  induction h with
  | init => exact invExt_empty
  | step hreach hstep ih =>
    cases hstep with
    | alloc ret size alignment scope hsize hfresh =>
      exact invExt_allocate _ ret size alignment scope ih hsize hfresh
    | realloc mem ret data size alignment scope hsize hfresh =>
      exact invExt_reallocate _ mem ret data size alignment scope ih hsize hfresh
    | dealloc data =>
      exact invExt_deallocate _ data ih

/-- C7 (amended): in every state reachable from the empty Allocator by
allocate, reallocate and deallocate calls (no internal notifications), for
every address present in the Block Ledger whose scope's total live ledger
bytes have not overflowed `size_t`, the Scope Aggregator entry for that
block's scope exists and has size ≥ the block's recorded size and
count ≥ 1. -/
theorem ledger_aggregate_invariant (st : Allocator) (hreach : ReachableExt st)
    (p : Ptr) (b : AllocatedBlock)
    (hb : mapLookup st.mAllocatedBlocks p = some b)
    (hsum : scopeSizeSum st.mAllocatedBlocks b.scope < UINT64_MOD) :
    (mapLookup st.mOccupiedMemory b.scope).isSome ∧
    b.size ≤ (getScope st b.scope).size ∧
    1 ≤ (getScope st b.scope).count := by
  obtain ⟨hagg, hpos, hex⟩ := reachableExt_invExt st hreach
  refine ⟨hex _ (mapLookup_mem _ _ _ hb), ?_, ?_⟩
  · rw [hagg b.scope]
    show b.size ≤ scopeSizeSum st.mAllocatedBlocks b.scope % UINT64_MOD
    rw [Nat.mod_eq_of_lt hsum]
    exact lookup_le_scopeSizeSum _ _ _ hb
  · rw [hagg b.scope]
    show 1 ≤ scopeBlockCount st.mAllocatedBlocks b.scope % UINT64_MOD
    have hcnt : scopeBlockCount st.mAllocatedBlocks b.scope < UINT64_MOD :=
      lt_of_le_of_lt (scopeBlockCount_le_sizeSum _ _ hpos) hsum
    rw [Nat.mod_eq_of_lt hcnt]
    exact lookup_one_le_scopeBlockCount _ _ _ hb

theorem ledger_aggregate_invariant_witness :
    (mapLookup (emptyAllocator.allocate 1 64 16
        VkSystemAllocationScope.cache).2.mOccupiedMemory
        VkSystemAllocationScope.cache).isSome ∧
    (64 : Nat) ≤ (getScope (emptyAllocator.allocate 1 64 16
        VkSystemAllocationScope.cache).2 VkSystemAllocationScope.cache).size ∧
    1 ≤ (getScope (emptyAllocator.allocate 1 64 16
        VkSystemAllocationScope.cache).2 VkSystemAllocationScope.cache).count :=
  ledger_aggregate_invariant (emptyAllocator.allocate 1 64 16 VkSystemAllocationScope.cache).2
    (ReachableExt.step ReachableExt.init
      (StepExt.alloc emptyAllocator 1 64 16 VkSystemAllocationScope.cache
        (by decide) (fun _ => rfl)))
    1 ⟨64, 16, VkSystemAllocationScope.cache⟩ (by decide) (by decide)

/-- C7 is false as stated: a state reachable from the empty Allocator by the
five operations — here `allocate(64, 16, Cache)` answered with address `1`
followed by `deallocate_internal(64, executable, Cache)` — holds a ledger
block of size 64 for scope Cache while the Cache aggregate is `(0, 0)`,
violating both `size ≥ block.size` and `count ≥ 1`. -/
theorem ledger_aggregate_counterexample :
    Reachable ((emptyAllocator.allocate 1 64 16
        VkSystemAllocationScope.cache).2.deallocate_internal 64
        VkInternalAllocationType.executable VkSystemAllocationScope.cache) ∧
    mapLookup ((emptyAllocator.allocate 1 64 16
        VkSystemAllocationScope.cache).2.deallocate_internal 64
        VkInternalAllocationType.executable
        VkSystemAllocationScope.cache).mAllocatedBlocks 1 =
      some ⟨64, 16, VkSystemAllocationScope.cache⟩ ∧
    getScope ((emptyAllocator.allocate 1 64 16
        VkSystemAllocationScope.cache).2.deallocate_internal 64
        VkInternalAllocationType.executable VkSystemAllocationScope.cache)
        VkSystemAllocationScope.cache = ⟨0, 0⟩ ∧
    ¬ ((64 : Nat) ≤ (getScope ((emptyAllocator.allocate 1 64 16
          VkSystemAllocationScope.cache).2.deallocate_internal 64
          VkInternalAllocationType.executable VkSystemAllocationScope.cache)
          VkSystemAllocationScope.cache).size ∧
       1 ≤ (getScope ((emptyAllocator.allocate 1 64 16
          VkSystemAllocationScope.cache).2.deallocate_internal 64
          VkInternalAllocationType.executable VkSystemAllocationScope.cache)
          VkSystemAllocationScope.cache).count) :=
  ⟨Reachable.step
    (Reachable.step Reachable.init
      (Step.alloc emptyAllocator 1 64 16 VkSystemAllocationScope.cache
        (by decide) (fun _ => rfl)))
    (Step.deallocInternal _ 64 VkInternalAllocationType.executable
      VkSystemAllocationScope.cache),
   by decide, by decide, by decide⟩

end cqdeVk
